import Mathlib

/-!
Shallow embedding of `scripts/dbgbtree.py` (littlefs rbyd B-tree debugger):
the codec (`crc32c`, `fromle32`, `fromleb128`, `fromtag`, `frombtree`), the
node fetcher (`Rbyd.fetch`), the node searcher (`Rbyd.lookup`, iteration),
and the tree descender (`btree_lookup` from `main`).

Conventions of the embedding:
* bytes are `Nat`s (a Python `bytes` object is a `List Nat` of values < 256);
* Python ints that can go negative (`id`, `lower`, `upper`, offsets inside
  `lookup`) are `Int`; unsigned scan state is `Nat`;
* a Python `IndexError` (e.g. `fromtag` reading `data[1]` of a 1-byte slice)
  is modelled as `none`; all loops carry explicit fuel, and exhausted fuel is
  also `none` (every concrete evaluation below uses visibly sufficient fuel);
* Python slice semantics (negative indices count from the end, out-of-range
  clamps) are modelled by `pyidx`/`pyslice`;
* Python `&` on a possibly-negative int x with a mask m < 2^32 equals
  `(x mod 2^32) &&& m` (infinite two's complement), which is how the
  revision sequence-comparison in `Rbyd.fetch` is rendered.
-/

/-- Python `bin(x).count('1')` (`popc` in the script): number of set bits.
The fuel `x` bounds the number of halvings, which is at most `x`. -/
def popcGo : Nat → Nat → Nat
  | 0, _ => 0
  | fuel+1, y => if y = 0 then 0 else y % 2 + popcGo fuel (y / 2)

/-- Python `popc(x) = bin(x).count('1')`. -/
def popc (x : Nat) : Nat := popcGo x x

/-- One round of the bitwise CRC-32C inner loop:
`crc = (crc >> 1) ^ ((crc & 1) * 0x82f63b78)`. -/
def crc32cRound (crc : Nat) : Nat := (crc >>> 1) ^^^ ((crc &&& 1) * 0x82f63b78)

/-- The per-byte step of `crc32c`: `crc ^= b` then 8 rounds. -/
def crc32cByte (crc b : Nat) : Nat := crc32cRound^[8] (crc ^^^ b)

/-- Python `crc32c(data, crc=0)` from the script (reflected Castagnoli). -/
def crc32c (data : List Nat) (crc : Nat) : Nat :=
  0xffffffff ^^^ (data.foldl crc32cByte (crc ^^^ 0xffffffff))

/-- Python `fromle32(data)`: `struct.unpack('<I', data[0:4].ljust(4, b'\x00'))`. -/
def fromle32 (data : List Nat) : Nat :=
  data.getD 0 0 ||| (data.getD 1 0 <<< 8) ||| (data.getD 2 0 <<< 16) |||
    (data.getD 3 0 <<< 24)

/-- The enumerated loop of Python `fromleb128`: `word` is the accumulator and
`i` the number of bytes consumed so far.  Falling off the end of the buffer
returns the best-effort word and the total count, exactly as the Python
`return word, len(data)` after the loop. -/
def fromleb128Aux : List Nat → Nat → Nat → Nat × Nat
  | [], word, i => (word, i)
  | b :: rest, word, i =>
    let word := (word ||| ((b &&& 0x7f) <<< (7 * i))) &&& 0xffffffff
    if b &&& 0x80 = 0 then (word, i + 1) else fromleb128Aux rest word (i + 1)

/-- Python `fromleb128(data)`: little-endian base-128 decode, 32-bit masked,
returning `(value, bytes consumed)`. -/
def fromleb128 (data : List Nat) : Nat × Nat := fromleb128Aux data 0 0

/-- Python `fromtag(data)`: `(valid-bit, tag, weight, size, header length)`.
Reading `data[0]`/`data[1]` of a buffer shorter than 2 bytes raises
`IndexError` in Python, modelled as `none`. -/
def fromtag (data : List Nat) : Option (Nat × Nat × Nat × Nat × Nat) :=
  match data with
  | b0 :: b1 :: rest =>
    let tag := (b0 <<< 8) ||| b1
    let wd := fromleb128 rest
    let sd := fromleb128 (rest.drop wd.2)
    some (tag >>> 15, tag &&& 0x7fff, wd.1, sd.1, 2 + wd.2 + sd.2)
  | _ => none

/-- Python `frombtree(data)`: branch payload `(weight, trunk, block, crc)`. -/
def frombtree (data : List Nat) : Nat × Nat × Nat × Nat :=
  let wd := fromleb128 data
  let td := fromleb128 (data.drop wd.2)
  let bd := fromleb128 ((data.drop wd.2).drop td.2)
  let crc := fromle32 (((data.drop wd.2).drop td.2).drop bd.2)
  (wd.1, td.1, bd.1, crc)

/-- Reference LEB128 encoder used to state the round-trip property of
`fromleb128` (the script itself has no encoder): emit 7 bits per byte,
continuation bit on every byte except the last.  The fuel `v+1` bounds the
number of divisions by 128. -/
def toleb128Go : Nat → Nat → List Nat
  | 0, _ => []
  | fuel+1, v => if v < 0x80 then [v] else (v % 0x80 + 0x80) :: toleb128Go fuel (v / 0x80)

/-- Reference LEB128 encoding of `v`. -/
def toleb128 (v : Nat) : List Nat := toleb128Go (v + 1) v

/-- Python index normalization for slices: `data[i:]` drops `pyidx  n i`. -/
def pyidx (n : Nat) (i : Int) : Nat :=
  if i < 0 then ((n : Int) + i).toNat else min i.toNat n

/-- Python `data[i:]`. -/
def pysliceFrom (data : List Nat) (i : Int) : List Nat :=
  data.drop (pyidx data.length i)

/-- Python `data[a:b]`. -/
def pyslice (data : List Nat) (a b : Int) : List Nat :=
  (data.take (pyidx data.length b)).drop (pyidx data.length a)

/-- Python lexicographic `<` on int pairs, as used for `(id, tag)` keys. -/
def pyLt (a b : Int × Int) : Bool :=
  decide (a.1 < b.1 ∨ (a.1 = b.1 ∧ a.2 < b.2))

/-- The core rbyd node type (class `Rbyd` of the script). -/
structure Rbyd where
  block : Nat
  data : List Nat
  rev : Nat
  off : Nat
  trunk : Nat
  weight : Nat
  other_blocks : List Nat
  deriving Repr, DecidableEq, Inhabited

/-- Python `Rbyd.__bool__`: `bool(self.trunk)`. -/
def Rbyd.truthy (r : Rbyd) : Bool := r.trunk != 0

/-- The local state of the `Rbyd.fetch` scan loop, one field per Python local.
`commits` is a ghost trace recording `(off, trunk, weight)` at each
CRC-validated commit (the `# commit what we have` branch); it influences
nothing. -/
structure FetchSt where
  crc : Nat
  crc_ : Nat
  off : Nat
  j_ : Nat
  trunk_ : Nat
  trunk__ : Nat
  weight : Nat
  lower_ : Nat
  upper_ : Nat
  weight_ : Nat
  wastrunk : Bool
  trunkoff : Option Nat
  commits : List (Nat × Nat × Nat)
  deriving Repr, DecidableEq, Inhabited

/-- Initial scan state of `Rbyd.fetch` over one block's `data`. -/
def initSt (data : List Nat) : FetchSt :=
  { crc := 0, crc_ := crc32c (data.take 4) 0, off := 0, j_ := 4, trunk_ := 0,
    trunk__ := 0, weight := 0, lower_ := 0, upper_ := 0, weight_ := 0,
    wastrunk := false, trunkoff := none, commits := [] }

/-- The `while` loop of `Rbyd.fetch` over one block.  `tr` is the requested
trunk offset with Python falsiness folded in (`None` and `0` behave
identically at every use, so both are `0`).  `none` models the Python
`IndexError` raised by `fromtag` on a short slice, or exhausted fuel;
a `break` or a failed loop condition returns the current state. -/
def fetchLoop (data : List Nat) (tr : Nat) : Nat → FetchSt → Option FetchSt
  | 0, _ => none
  | fuel+1, st =>
    if st.j_ < data.length ∧ (tr = 0 ∨ st.off ≤ tr) then
      match fromtag (data.drop st.j_) with
      | none => none
      | some (v, tag, w, size, d) =>
        if v ≠ popc st.crc_ % 2 then some st
        else
          let crc1 := crc32c ((data.drop st.j_).take d) st.crc_
          let j1 := st.j_ + d
          let st1 := { st with crc_ := crc1, j_ := j1 }
          if tag &&& 0x4000 = 0 ∧ data.length < j1 + size then some st1
          else
            -- take care of crcs
            let step2 : FetchSt ⊕ FetchSt :=
              if tag &&& 0x4000 = 0 then
                if tag &&& 0x7f00 ≠ 0x2000 then
                  Sum.inr { st1 with crc_ := crc32c ((data.drop j1).take size) crc1 }
                else
                  let crc__ := fromle32 ((data.drop j1).take 4)
                  if crc1 ≠ crc__ then Sum.inl st1
                  else
                    -- commit what we have
                    let offN := match st.trunkoff with
                      | some t => if t = 0 then j1 + size else t
                      | none => j1 + size
                    Sum.inr { st1 with
                                off := offN, crc := crc1,
                                trunk_ := st.trunk__, weight := st.weight_,
                                commits := st.commits ++ [(offN, st.trunk__, st.weight_)] }
              else Sum.inr st1
            match step2 with
            | Sum.inl stB => some stB
            | Sum.inr st2 =>
              -- evaluate trunks
              let st3 :=
                if tag &&& 0x6000 ≠ 0x2000 ∧ (tr = 0 ∨ st.j_ ≤ tr ∨ st.wastrunk) then
                  -- new trunk?
                  let stA := if ¬ st.wastrunk then
                      { st2 with
                          trunk__ := st.j_, lower_ := 0, upper_ := 0,
                          wastrunk := true }
                    else st2
                  -- keep track of weight
                  if tag &&& 0x4000 ≠ 0 then
                    if tag &&& 0x2000 ≠ 0 then { stA with upper_ := stA.upper_ + w }
                    else { stA with lower_ := stA.lower_ + w }
                  else
                    let stB := { stA with
                                   weight_ := stA.lower_ + stA.upper_ + w,
                                   wastrunk := false }
                    if tr ≠ 0 ∧ tr < j1 + size then { stB with trunkoff := some (j1 + size) }
                    else stB
                else st2
              let st4 := if tag &&& 0x4000 = 0 then { st3 with j_ := st3.j_ + size } else st3
              fetchLoop data tr fuel st4
    else some st

/-- One block's bytes as read by `Rbyd.fetch`: seek to `block * blockSize`
and read `blockSize` bytes of the disk image. -/
def blockData (disk : List Nat) (blockSize block : Nat) : List Nat :=
  (disk.drop (block * blockSize)).take blockSize

/-- The single-block part of `Rbyd.fetch`, returning the raw final scan
state.  `block` is a Python block address that may encode a trunk
(`(block, some t)` is the tuple form, consulted only when the `trunk`
argument is `None`).  `fuel = data.length + 1` suffices because every
iteration advances `j_` by the header length `d ≥ 2`. -/
def Rbyd.fetchRaw (disk : List Nat) (blockSize : Nat) (block : Nat × Option Nat)
    (trunk? : Option Nat) : Option FetchSt :=
  let trunk? := match trunk? with
    | some t => some t
    | none => block.2
  let data := blockData disk blockSize block.1
  fetchLoop data (trunk?.getD 0) (data.length + 1) (initSt data)

/-- The single-block `Rbyd.fetch`, assembling the returned node
`cls(block, data, rev, off, trunk_, weight)`. -/
def Rbyd.fetchOne (disk : List Nat) (blockSize : Nat) (block : Nat × Option Nat)
    (trunk? : Option Nat) : Option Rbyd :=
  (Rbyd.fetchRaw disk blockSize block trunk?).map fun st =>
    { block := block.1, data := blockData disk blockSize block.1,
      rev := fromle32 (blockData disk blockSize block.1),
      off := st.off, trunk := st.trunk_, weight := st.weight, other_blocks := [] }

/-- The revision-selection loop of `Rbyd.fetch` over already-fetched mirror
candidates: `i = 0; for i_, rbyd in enumerate(rbyds): if rbyd and (not
((rbyd.rev - rbyds[i].rev) & 0x80000000) or (rbyd.rev == rbyds[i].rev and
rbyd.trunk > rbyds[i].trunk)): i = i_`.  The accumulator carries
`(i, rbyds[i])`. -/
def Rbyd.selectFold (rbyds : List Rbyd) : Nat × Rbyd :=
  match rbyds with
  | [] => (0, default)
  | r0 :: _ =>
    rbyds.enum.foldl (fun best p =>
      if p.2.truthy ∧
          (((((p.2.rev : Int) - (best.2.rev : Int)) % 0x100000000).toNat &&& 0x80000000 = 0)
            ∨ (p.2.rev = best.2.rev ∧ best.2.trunk < p.2.trunk))
      then p else best) (0, r0)

/-- Python `Rbyd.fetch(f, block_size, blocks, trunk)` for a list of block
addresses: fetch every block, keep the most recent revision, record the
other blocks.  A crash in any sub-fetch (`none`) propagates. -/
def Rbyd.fetch (disk : List Nat) (blockSize : Nat) (blocks : List (Nat × Option Nat))
    (trunk? : Option Nat) : Option Rbyd :=
  match blocks with
  | [] => none
  | [b] => Rbyd.fetchOne disk blockSize b trunk?
  | _ =>
    match blocks.mapM (fun b => Rbyd.fetchOne disk blockSize b trunk?) with
    | none => none
    | some rbyds =>
      let ir := Rbyd.selectFold rbyds
      some { ir.2 with other_blocks :=
        (List.range (rbyds.length - 1)).map fun j =>
          (rbyds.getD ((ir.1 + 1 + j) % rbyds.length) default).block }

/-- The result tuple of `Rbyd.lookup`:
`(done, id, tag, w, off, header length, payload, path)`.  `tag_` is `Int`
because the falsy-node early return yields `-1`. -/
structure LookupRes where
  done : Bool
  id_ : Int
  tag_ : Int
  w_ : Int
  j : Int
  d : Nat
  data : List Nat
  path : List (Int × Int × Bool × Char)
  deriving Repr, DecidableEq, Inhabited

/-- The `while True` descent of `Rbyd.lookup` over the alt-pointer structure.
State: candidate range `[lower, upper)`, current offset `j`, decision
`path`.  `none` models a Python `IndexError` (offset outside the buffer) or
exhausted fuel; on well-formed nodes the loop reaches a terminal tag. -/
def Rbyd.lookupLoop (r : Rbyd) (id tag : Int) :
    Nat → Int → Int → Int → List (Int × Int × Bool × Char) → Option LookupRes
  | 0, _, _, _, _ => none
  | fuel+1, lower, upper, j, path =>
    match fromtag (pysliceFrom r.data j) with
    | none => none
    | some (_, alt, weight_, jump, d) =>
      -- found an alt?
      if alt &&& 0x4000 ≠ 0 then
        -- follow?
        if (if alt &&& 0x2000 ≠ 0 then
              pyLt (upper - (weight_ : Int) - 1, ((alt &&& 0xfff : Nat) : Int))
                (id, tag.emod 0x1000)
            else
              ! pyLt (lower + (weight_ : Int), ((alt &&& 0xfff : Nat) : Int))
                (id, tag.emod 0x1000)) then
          let lower' := if alt &&& 0x2000 ≠ 0 then
              lower + (upper - lower - 1 - (weight_ : Int)) else lower
          let upper' := if alt &&& 0x2000 = 0 then
              upper - (upper - lower - 1 - (weight_ : Int)) else upper
          let j' := j - (jump : Int)
          -- figure out which color
          let c? : Option Char :=
            if alt &&& 0x1000 ≠ 0 then
              match fromtag (pysliceFrom r.data (j' + (jump : Int) + (d : Int))) with
              | none => none
              | some (_, nalt, _, _, _) =>
                some (if nalt &&& 0x1000 ≠ 0 then 'y' else 'r')
            else some 'b'
          match c? with
          | none => none
          | some c =>
            r.lookupLoop id tag fuel lower' upper' j'
              (path ++ [(j' + (jump : Int), j', true, c)])
        -- stay on path
        else
          let lower' := if alt &&& 0x2000 = 0 then lower + (weight_ : Int) else lower
          let upper' := if alt &&& 0x2000 ≠ 0 then upper - (weight_ : Int) else upper
          let j' := j + (d : Int)
          -- figure out which color
          let c? : Option Char :=
            if alt &&& 0x1000 ≠ 0 then
              match fromtag (pysliceFrom r.data j') with
              | none => none
              | some (_, nalt, _, _, _) =>
                some (if nalt &&& 0x1000 ≠ 0 then 'y' else 'r')
            else some 'b'
          match c? with
          | none => none
          | some c =>
            r.lookupLoop id tag fuel lower' upper' j'
              (path ++ [(j' - (d : Int), j', false, c)])
      -- found tag
      else
        let id_ := upper - 1
        let w_ := id_ - lower
        let done := pyLt (id_, (alt : Int)) (id, tag) || decide (alt &&& 0x1000 ≠ 0)
        some ⟨done, id_, (alt : Int), w_, j, d,
          pyslice r.data (j + (d : Int)) (j + (d : Int) + (jump : Int)), path⟩

/-- Python `Rbyd.lookup(self, id, tag)`: falsy nodes answer
`(True, 0, -1, 0, 0, 0, b'', [])` immediately, otherwise descend from the
trunk with `lower = -1`, `upper = self.weight`. -/
def Rbyd.lookup (r : Rbyd) (id tag : Int) (fuel : Nat) : Option LookupRes :=
  if ! r.truthy then some ⟨true, 0, -1, 0, 0, 0, [], []⟩
  else r.lookupLoop id tag fuel (-1) (r.weight : Int) (r.trunk : Int) []

/-- The loop of `Rbyd.__iter__`: repeatedly `lookup(id, tag+1)`, stop at
`done`, else yield `(id, tag, w, j, d, data)` and continue from the result.
Returns `none` on a crashed lookup or exhausted fuel. -/
def Rbyd.iterLoop (r : Rbyd) (lfuel : Nat) :
    Nat → Int → Int → Option (List (Int × Int × Int × Int × Nat × List Nat))
  | 0, _, _ => none
  | fuel+1, id, tag =>
    match r.lookup id (tag + 1) lfuel with
    | none => none
    | some res =>
      if res.done then some []
      else
        match r.iterLoop lfuel fuel res.id_ res.tag_ with
        | none => none
        | some rest => some ((res.id_, res.tag_, res.w_, res.j, res.d, res.data) :: rest)

/-- Python `Rbyd.__iter__`: iteration starts from `id = -1`, `tag = 0`. -/
def Rbyd.iter (r : Rbyd) (fuel lfuel : Nat) :
    Option (List (Int × Int × Int × Int × Nat × List Nat)) :=
  r.iterLoop lfuel fuel (-1) 0

/-- One collected tag of the descender: `(tag, j, d, data)`. -/
abbrev BtTag := Int × Int × Nat × List Nat

/-- The result tuple of `btree_lookup` (the closure inside `main`):
`(done, bid, w, rbyd, rid, tags, path)`. -/
structure BtRes where
  done : Bool
  bid : Int
  w : Int
  rbyd : Rbyd
  rid : Int
  tags : List BtTag
  path : List (Int × Int × Rbyd × Int × List BtTag)
  deriving Repr, Inhabited

/-- The `for i in it.count()` tag-collection loop of `btree_lookup`:
gather every tag of the resolved local id, remembering the first
iteration's `(rid_, w)` and any `TAG_BTREE` (0x0303) branch.  Returns
`(rid_, w, tags, branch)`. -/
def collectLoop (r : Rbyd) (lfuel : Nat) :
    Nat → Nat → Int → Int → Int → Option BtTag → List BtTag →
      Option (Int × Int × List BtTag × Option BtTag)
  | 0, _, _, _, _, _, _ => none
  | fuel+1, i, rid_, tag, w, branch, tags =>
    match r.lookup rid_ (tag + 1) lfuel with
    | none => none
    | some res =>
      if res.done || (decide (i ≠ 0) && decide (res.id_ ≠ rid_)) then
        some (rid_, w, tags, branch)
      else
        let rid' := if i = 0 then res.id_ else rid_
        let w' := if i = 0 then res.w_ else w
        let branch' := if res.tag_ = 0x0303 then
            some (res.tag_, res.j, res.d, res.data) else branch
        collectLoop r lfuel fuel (i + 1) rid' res.tag_ w' branch'
          (tags ++ [(res.tag_, res.j, res.d, res.data)])

/-- The `while True` descent of `btree_lookup`: collect the tags at the
current node's resolved id, descend along a `TAG_BTREE` branch when present
and the depth limit allows, else return the leaf.  `depth?` is the Python
`depth` argument with `None`/`0` both falsy. -/
def btreeLookupLoop (disk : List Nat) (blockSize : Nat) (depth? : Option Nat)
    (lfuel cfuel : Nat) :
    Nat → Rbyd → Int → Int → Nat →
      List (Int × Int × Rbyd × Int × List BtTag) → Option BtRes
  | 0, _, _, _, _, _ => none
  | fuel+1, rbyd, bid, rid, depth_, path =>
    match collectLoop rbyd lfuel cfuel 0 rid 0 0 none [] with
    | none => none
    | some (rid_, w, tags, branch) =>
      -- keep track of path
      let path := path ++ [(bid + (rid_ - rid), w, rbyd, rid_, tags)]
      -- descend down branch?
      match branch with
      | some (_, _, _, bdata) =>
        if depth?.getD 0 = 0 ∨ depth_ < depth?.getD 0 then
          let wtb := frombtree bdata
          match Rbyd.fetchOne disk blockSize (wtb.2.2.1, none) (some wtb.2.1) with
          | none => none
          | some rbyd' =>
            -- corrupted? bail here so we can keep traversing the tree
            if ! rbyd'.truthy then
              some ⟨false, bid + (rid_ - rid), w, rbyd', -1, [], path⟩
            else
              btreeLookupLoop disk blockSize depth? lfuel cfuel fuel rbyd'
                bid (rid - (rid_ - (w - 1))) (depth_ + 1) path
        else
          some ⟨tags.isEmpty, bid + (rid_ - rid), w, rbyd, rid_, tags, path⟩
      | none =>
        some ⟨tags.isEmpty, bid + (rid_ - rid), w, rbyd, rid_, tags, path⟩

/-- Python `btree_lookup(bid, depth)` from `main`, given the already-fetched
root node `btree`: a falsy root answers `(bid > 0, bid, 0, rbyd, -1, [], [])`
at once, otherwise descend starting from `rid = bid` at depth 1. -/
def btreeLookup (disk : List Nat) (blockSize : Nat) (btree : Rbyd) (bid : Int)
    (depth? : Option Nat) (fuel lfuel cfuel : Nat) : Option BtRes :=
  if ! btree.truthy then some ⟨decide (0 < bid), bid, 0, btree, -1, [], []⟩
  else btreeLookupLoop disk blockSize depth? lfuel cfuel fuel btree bid bid 1 []

/-!
Concrete block fixtures.  Each is a raw block image: 4 bytes of little-endian
revision, then a stream of tag records whose valid bits match the running
CRC-32C parity and whose CRC records carry the correct (or deliberately
corrupted) running CRC.  The byte values were computed from the tag layout
described at each fixture; `Rbyd.fetchRaw` re-validates all of them during
kernel evaluation, so a wrong CRC byte would make the theorems below fail.
-/

/-- Block with two sequential valid commits: commit 1 = tag `0x0101 w1` at
offset 4 plus CRC record (off 16, trunk 4, weight 1); commit 2 = tag
`0x0102 w2` at offset 16 plus CRC record (off 28, trunk 16, weight 2). -/
def dTwo : List Nat :=
  [1, 0, 0, 0, 129, 1, 1, 0, 160, 0, 0, 4, 84, 135, 0, 162, 1, 2, 2, 0,
   160, 0, 0, 4, 144, 61, 73, 222]

/-- Same block as `dTwo` but with the low byte of the second commit's CRC
payload flipped (144 → 145), so the second commit's CRC record mismatches. -/
def dCor : List Nat :=
  [1, 0, 0, 0, 129, 1, 1, 0, 160, 0, 0, 4, 84, 135, 0, 162, 1, 2, 2, 0,
   160, 0, 0, 4, 145, 61, 73, 222]

/-- A committed node with inconsistent alt weights: terminal `0x0101 w1` at
offset 4, then the committed tree at trunk 8 = alt `le, key 0xfff, weight
100, jump → 4` followed by terminal `0x0101 w1` at offset 12, then a valid
CRC record.  Fetch accepts it with weight = 100 + 1 = 101, but the alt
covers 100 of those ids and iteration never reaches id 100. -/
def dGap : List Nat :=
  [2, 0, 0, 0, 129, 1, 1, 0, 207, 255, 100, 4, 129, 1, 1, 0, 160, 0, 0, 4,
   58, 71, 14, 69]

/-- A committed node with a corrupt alt: terminal `0x0101 w1` at offset 4,
committed tree at trunk 8 = alt `gt, key 0, weight 50, jump → 4` followed by
terminal `0x0101 w1`, then a valid CRC record; fetched weight = 51.  Every
query follows the gt-alt, so resolving bid 0 lands on id 50 with weight 50:
a covered range `[1, 50]` that does not contain bid 0. -/
def dContain : List Nat :=
  [3, 0, 0, 0, 1, 1, 1, 0, 224, 0, 50, 4, 1, 1, 1, 0, 160, 0, 0, 4,
   178, 196, 147, 233]

/-- A disk image of three 40-byte blocks forming a well-formed two-level
B-tree of total weight 4.  Block 0 (root, trunk 15): two `TAG_BTREE`
(0x0303) entries of weight 2 whose payloads `(w=2, trunk=8, block, crc)`
point at blocks 1 and 2; block 1 and block 2 (leaves, trunk 8): two
`0x0101 w1` entries each, separated by an `le` alt of weight 1. -/
def dTree : List Nat :=
  [4, 0, 0, 0, 131, 3, 2, 7, 2, 8, 1, 0, 0, 0, 0, 195, 3, 2, 11, 131, 3,
   2, 7, 2, 8, 2, 0, 0, 0, 0, 160, 0, 0, 4, 135, 191, 112, 66, 0, 0] ++
  [5, 0, 0, 0, 1, 1, 1, 0, 193, 1, 1, 4, 129, 1, 1, 0, 160, 0, 0, 4,
   68, 6, 109, 49, 0, 0, 0, 0, 0, 0, 0, 0, 0, 0, 0, 0, 0, 0, 0, 0] ++
  [6, 0, 0, 0, 1, 1, 1, 0, 193, 1, 1, 4, 129, 1, 1, 0, 160, 0, 0, 4,
   131, 30, 169, 104, 0, 0, 0, 0, 0, 0, 0, 0, 0, 0, 0, 0, 0, 0, 0, 0]

/-- A 9-byte block whose first tag is a parity-valid alt with a 4-byte
header, leaving exactly one byte before the end of the block: the scan's
next `fromtag` reads `data[1]` of a 1-byte slice, an `IndexError`.  No
commit is ever found. -/
def dBad9 : List Nat := [0, 0, 0, 0, 96, 0, 0, 0, 0]

/-- An 8-byte block whose first tag's valid bit (1) disagrees with the
running CRC parity (0): the scan stops at once and no commit is found. -/
def dNoCommit : List Nat := [0, 0, 0, 0, 0x81, 0x01, 0, 0]

/-- Two mirrored 20-byte blocks with equal revision 7: block 0 commits with
trunk 8 (two candidate trees before its CRC record), block 1 commits with
trunk 4. -/
def dMirror : List Nat :=
  [7, 0, 0, 0, 129, 1, 1, 0, 129, 1, 1, 0, 160, 0, 0, 4, 7, 40, 133, 139] ++
  [7, 0, 0, 0, 129, 1, 1, 0, 160, 0, 0, 4, 244, 127, 36, 5, 0, 0, 0, 0]

set_option maxRecDepth 4000000 in
/-- C2, refuted (code bug): `Rbyd.fetch` does NOT return a value on every
block content.  On a 5-byte all-zero block (block size 5) the scan calls
`fromtag` on the 1-byte slice `data[4:]`, and `fromtag` reads `data[1]`
unconditionally — an uncaught Python `IndexError` (`none` in this
embedding), not a reported value.  The spec's own error taxonomy says a
truncated header should merely stop the scan. -/
theorem fetch_crashes_on_truncated_header :
    Rbyd.fetchOne [0, 0, 0, 0, 0] 5 (0, none) none = none := by decide

set_option maxRecDepth 4000000 in
/-- C8, refuted in its no-exception clause (same code bug as C2): on a
block where the scan finds no CRC-validated commit the fetch does return
the falsy `trunk = 0, weight = 0` node when the scan terminates normally
(`dNoCommit`), but on `dBad9` — which also contains no valid commit — the
scan instead raises `IndexError` reading a truncated header at the last
byte of the block. -/
theorem fetch_no_commit_falsy_and_crash :
    (Rbyd.fetchOne dNoCommit 8 (0, none) none).map
        (fun r => (r.trunk, r.weight, r.truthy)) = some (0, 0, false) ∧
      Rbyd.fetchOne dBad9 9 (0, none) none = none := by decide

set_option maxRecDepth 4000000 in
/-- C5, refuted (code bug): on equal revisions `Rbyd.fetch` selects the
LAST listed fetchable mirror, not the one with the larger trunk.  With
`dMirror` (block 0: trunk 8, block 1: trunk 4, equal revision 7), listing
`[0, 1]` selects block 1 with the smaller trunk 4, and listing `[1, 0]`
selects block 0 — the choice depends on listing order.  The trunk
tie-break disjunct in the source is dead code: equal revisions already
satisfy `not ((rbyd.rev - rbyds[i].rev) & 0x80000000)`. -/
theorem fetch_equal_rev_picks_last_listed :
    (Rbyd.fetch dMirror 20 [(0, none), (1, none)] none).map
        (fun r => (r.block, r.trunk, r.rev, r.other_blocks)) = some (1, 4, 7, [0]) ∧
      (Rbyd.fetch dMirror 20 [(1, none), (0, none)] none).map
        (fun r => (r.block, r.trunk, r.rev, r.other_blocks)) = some (0, 8, 7, [1]) := by
  decide

set_option maxRecDepth 4000000 in
/-- C1, counterexample: a fetched root with trunk 8 (non-falsy) and weight
51 (`dContain`, corrupt alt weights) for which resolving bid 0 (which is in
`[0, 51)`) returns `done = false`, leaf id 50 with weight 50 — a covered
id-range whose lower end `res.bid - (res.w - 1) = 1` exceeds 0, i.e. a
range `[1, 50]` that does not contain the resolved bid 0. -/
theorem btreeLookup_range_misses_bid :
    (Rbyd.fetchOne dContain 24 (0, none) none).map (fun r =>
        (r.trunk, r.weight, (btreeLookup dContain 24 r 0 none 10 50 50).map fun res =>
          (res.bid, res.w, res.bid - (res.w - 1)))) =
        some (8, 51, some (50, 50, 1)) ∧
      (Rbyd.fetchOne dContain 24 (0, none) none).map (fun r =>
        (btreeLookup dContain 24 r 0 none 10 50 50).map fun res => res.done) =
        some (some false) := by decide

set_option maxRecDepth 4000000 in
/-- End-to-end evaluation of the partition property on the concrete
two-level tree `dTree` of weight 4: resolving each bid in `[0, 4)` returns
`done = false` and the covered range `[bid - (w-1), bid] = [bid, bid]`, so
every bid lies in its range and the four ranges tile `[0, 4)` with no gaps
and no overlaps.  (The general statement over every well-formed tree is
proved below; this instance only cross-checks it against a direct kernel
evaluation of the descender.) -/
theorem btreeLookup_partition_on_wellformed_tree :
    (Rbyd.fetch dTree 40 [(0, none)] none).map (fun r =>
        (r.weight, (List.range 4).map fun b =>
          (btreeLookup dTree 40 r (b : Int) none 10 50 50).map fun res =>
            (res.done, res.bid - (res.w - 1), res.bid))) =
      some (4, [some (false, 0, 0), some (false, 1, 1),
                some (false, 2, 2), some (false, 3, 3)]) := by decide

/-- The spec's structural invariants of a well-formed B-tree ("within a
node, ids are strictly ordered and weights partition `[-1, weight)` into
contiguous, non-overlapping ranges"; "branch weight recorded in a parent
must equal the covered id-span in the child"), stated in the observable
form the descender relies on.  `good` is an arbitrary height-indexed family
of nodes closed under branch descent, so one hypothesis of this shape
ranges over every well-formed tree of any height and arity: each node of
the family is non-falsy, every local id `rid` in `[0, weight)` collects to
an entry `(rid_, w)` whose id-range `(rid_ - w, rid_]` contains `rid` and
stays inside `(-1, weight)`, all ids of one range collect the very same
result, and a `TAG_BTREE` branch, when present, fetches a node of the
family of strictly smaller height covering exactly `w` ids. -/
def NodeOk (disk : List Nat) (blockSize lfuel cfuel : Nat)
    (good : Nat → Rbyd → Prop) : Prop :=
  ∀ n r, good n r → r.truthy = true ∧
    ∀ rid : Int, 0 ≤ rid → rid < (r.weight : Int) →
      ∃ rid_ w tags branch,
        collectLoop r lfuel cfuel 0 rid 0 0 none [] =
          some (rid_, w, tags, branch) ∧
        -1 ≤ rid_ - w ∧ rid_ - w < rid ∧ rid ≤ rid_ ∧
        rid_ < (r.weight : Int) ∧ tags ≠ [] ∧
        (∀ rid2 : Int, rid_ - w < rid2 → rid2 ≤ rid_ →
          collectLoop r lfuel cfuel 0 rid2 0 0 none [] =
            some (rid_, w, tags, branch)) ∧
        (∀ tg j d bdata, branch = some (tg, j, d, bdata) →
          ∃ n' rbyd', n' < n ∧
            Rbyd.fetchOne disk blockSize ((frombtree bdata).2.2.1, none)
              (some (frombtree bdata).2.1) = some rbyd' ∧
            good n' rbyd' ∧ (rbyd'.weight : Int) = w)

/-- With the Python `depth=None` argument, the depth test of the descent
loop always allows descending. -/
theorem depth_none_ok (dp : Nat) :
    (none : Option Nat).getD 0 = 0 ∨ dp < (none : Option Nat).getD 0 :=
  Or.inl rfl

/-- Containment invariant of the `while True` descent on a well-formed
tree: started anywhere inside a node of the family, the descender
terminates with an undone leaf whose id-range contains the queried bid and
stays inside the subtree's global coverage
`[bid - rid, bid - rid + weight)`. -/
theorem btreeLoop_contains (disk : List Nat) (blockSize lfuel cfuel : Nat)
    (good : Nat → Rbyd → Prop) (hok : NodeOk disk blockSize lfuel cfuel good) :
    ∀ (fuel n : Nat) (r : Rbyd) (bid rid : Int) (dep : Nat)
      (path : List (Int × Int × Rbyd × Int × List BtTag)),
      good n r → n < fuel → 0 ≤ rid → rid < (r.weight : Int) →
      ∃ res,
        btreeLookupLoop disk blockSize none lfuel cfuel fuel r bid rid dep
            path = some res ∧
        res.done = false ∧ bid - rid - 1 ≤ res.bid - res.w ∧
        res.bid - res.w < bid ∧ bid ≤ res.bid ∧
        res.bid < bid - rid + (r.weight : Int) := by
  intro fuel
  induction fuel with
  | zero => intro n r bid rid dep path hg hfuel hr0 hrW; omega
  | succ fuel ih =>
    intro n r bid rid dep path hg hfuel hr0 hrW
    obtain ⟨htr, hnode⟩ := hok n r hg
    obtain ⟨rid_, w, tags, branch, hcol, hlo, hlt, hle, hhi, htags, hconst, hbr⟩ :=
      hnode rid hr0 hrW
    rw [btreeLookupLoop, hcol]
    rcases branch with _ | ⟨tg, j, d, bdata⟩
    · refine ⟨_, rfl, ?_, by dsimp only; omega, by dsimp only; omega,
        by dsimp only; omega, by dsimp only; omega⟩
      dsimp only
      cases tags with
      | nil => exact absurd rfl htags
      | cons a t => rfl
    · obtain ⟨n', rbyd', hn', hfetch, hg', hw'⟩ := hbr tg j d bdata rfl
      have htr' := (hok n' rbyd' hg').1
      dsimp only
      rw [if_pos (depth_none_ok dep), hfetch]
      dsimp only
      rw [if_neg (show ¬((! rbyd'.truthy) = true) from by simp [htr'])]
      obtain ⟨res, hres, hd, h1, h2, h3, h4⟩ :=
        ih n' rbyd' bid (rid - (rid_ - (w - 1))) (dep + 1)
          (path ++ [(bid + (rid_ - rid), w, r, rid_, tags)]) hg'
          (by omega) (by omega) (by omega)
      exact ⟨res, hres, hd, by omega, by omega, by omega, by omega⟩

/-- Resolution constancy of the descent on a well-formed tree: a second bid
falling inside the leaf range the descender resolved for a first bid
follows the very same root-to-leaf branches (each intermediate local id
lands in the same per-node range), so it resolves to the identical leaf
range. -/
theorem btreeLoop_same (disk : List Nat) (blockSize lfuel cfuel : Nat)
    (good : Nat → Rbyd → Prop) (hok : NodeOk disk blockSize lfuel cfuel good) :
    ∀ (fuel n : Nat) (r : Rbyd) (bid rid : Int) (dep : Nat)
      (path : List (Int × Int × Rbyd × Int × List BtTag)) (res : BtRes),
      good n r → n < fuel → 0 ≤ rid → rid < (r.weight : Int) →
      btreeLookupLoop disk blockSize none lfuel cfuel fuel r bid rid dep
          path = some res →
      ∀ (bid2 : Int) (dep2 : Nat)
        (path2 : List (Int × Int × Rbyd × Int × List BtTag)),
        res.bid - res.w < bid2 → bid2 ≤ res.bid →
        ∃ res2,
          btreeLookupLoop disk blockSize none lfuel cfuel fuel r bid2
              (rid + (bid2 - bid)) dep2 path2 = some res2 ∧
          res2.done = res.done ∧ res2.bid = res.bid ∧ res2.w = res.w := by
  intro fuel
  induction fuel with
  | zero => intro n r bid rid dep path res hg hfuel; omega
  | succ fuel ih =>
    intro n r bid rid dep path res hg hfuel hr0 hrW hrun bid2 dep2 path2 hb1 hb2
    obtain ⟨htr, hnode⟩ := hok n r hg
    obtain ⟨rid_, w, tags, branch, hcol, hlo, hlt, hle, hhi, htags, hconst, hbr⟩ :=
      hnode rid hr0 hrW
    rw [btreeLookupLoop, hcol] at hrun
    rcases branch with _ | ⟨tg, j, d, bdata⟩
    · dsimp only at hrun
      rw [Option.some_inj] at hrun
      subst hrun
      dsimp only at hb1 hb2
      have hcol2 := hconst (rid + (bid2 - bid)) (by omega) (by omega)
      rw [btreeLookupLoop, hcol2]
      refine ⟨_, rfl, by dsimp only, by dsimp only; omega, by dsimp only⟩
    · obtain ⟨n', rbyd', hn', hfetch, hg', hw'⟩ := hbr tg j d bdata rfl
      have htr' := (hok n' rbyd' hg').1
      dsimp only at hrun
      rw [if_pos (depth_none_ok dep), hfetch] at hrun
      dsimp only at hrun
      rw [if_neg (show ¬((! rbyd'.truthy) = true) from by simp [htr'])] at hrun
      obtain ⟨resA, hresA, hdA, hA1, hA2, hA3, hA4⟩ :=
        btreeLoop_contains disk blockSize lfuel cfuel good hok fuel n' rbyd'
          bid (rid - (rid_ - (w - 1))) (dep + 1)
          (path ++ [(bid + (rid_ - rid), w, r, rid_, tags)]) hg'
          (by omega) (by omega) (by omega)
      rw [hrun, Option.some_inj] at hresA
      subst hresA
      have hcol2 := hconst (rid + (bid2 - bid)) (by omega) (by omega)
      rw [btreeLookupLoop, hcol2]
      dsimp only
      rw [if_pos (depth_none_ok dep2), hfetch]
      dsimp only
      rw [if_neg (show ¬((! rbyd'.truthy) = true) from by simp [htr'])]
      rw [show rid + (bid2 - bid) - (rid_ - (w - 1)) =
            rid - (rid_ - (w - 1)) + (bid2 - bid) from by ring]
      exact ih n' rbyd' bid (rid - (rid_ - (w - 1))) (dep + 1)
        (path ++ [(bid + (rid_ - rid), w, r, rid_, tags)]) res hg'
        (by omega) (by omega) (by omega) hrun bid2 (dep2 + 1)
        (path2 ++ [(bid2 + (rid_ - (rid + (bid2 - bid))), w, r, rid_, tags)])
        hb1 hb2

/-- C1, amended: for EVERY B-tree satisfying the spec's structural
invariants — packaged as `NodeOk` over an arbitrary height-indexed family
`good` of nodes closed under branch descent, in which each node's per-id
ranges contain their id, stay inside the node's weight, and are
resolution-constant, and each branch fetches a non-falsy child covering
exactly the branch's recorded weight — resolving any `bid` in `[0, W)`
through `btree_lookup` returns an undone leaf whose covered id-range
`(res.bid - res.w, res.bid]` contains `bid` and lies inside `[0, W)`, and
every other bid of that same range resolves to the identical range.  The
leaf ranges therefore cover `[0, W)` exactly: no gaps (each bid sits in its
own range, which stays inside `[0, W)`) and no overlaps (two ranges sharing
a bid coincide).  On a node with corrupt alt weights the containment fails,
so the well-formedness hypothesis is exactly what the original claim was
missing. -/
theorem btreeLookup_partition_wf (disk : List Nat)
    (blockSize lfuel cfuel fuel : Nat) (good : Nat → Rbyd → Prop)
    (hok : NodeOk disk blockSize lfuel cfuel good) (root : Rbyd) (n : Nat)
    (hg : good n root) (hfuel : n < fuel) (bid : Int) (hb0 : 0 ≤ bid)
    (hbW : bid < (root.weight : Int)) :
    ∃ res,
      btreeLookup disk blockSize root bid none fuel lfuel cfuel = some res ∧
      res.done = false ∧
      res.bid - res.w < bid ∧ bid ≤ res.bid ∧
      -1 ≤ res.bid - res.w ∧ res.bid < (root.weight : Int) ∧
      ∀ bid2 : Int, res.bid - res.w < bid2 → bid2 ≤ res.bid →
        ∃ res2,
          btreeLookup disk blockSize root bid2 none fuel lfuel cfuel =
            some res2 ∧
          res2.done = false ∧ res2.bid = res.bid ∧ res2.w = res.w := by
  have htr := (hok n root hg).1
  obtain ⟨res, hres, hd, h1, h2, h3, h4⟩ :=
    btreeLoop_contains disk blockSize lfuel cfuel good hok fuel n root bid bid
      1 [] hg hfuel hb0 hbW
  refine ⟨res, ?_, hd, by omega, by omega, by omega, by omega, ?_⟩
  · rw [btreeLookup, if_neg (show ¬((! root.truthy) = true) from by simp [htr])]
    exact hres
  · intro bid2 hx hy
    obtain ⟨res2, hres2, e1, e2, e3⟩ :=
      btreeLoop_same disk blockSize lfuel cfuel good hok fuel n root bid bid 1
        [] res hg hfuel hb0 hbW hres bid2 1 [] hx hy
    rw [show bid + (bid2 - bid) = bid2 from by ring] at hres2
    refine ⟨res2, ?_, by rw [e1, hd], e2, e3⟩
    rw [btreeLookup, if_neg (show ¬((! root.truthy) = true) from by simp [htr])]
    exact hres2

/-- The root node of the two-level fixture tree `dTree` (block 0, trunk 15,
weight 4), spelled out as the node value the fetcher returns — see
`treeRoot_fetch`. -/
def treeRoot : Rbyd :=
  ⟨0, [4, 0, 0, 0, 131, 3, 2, 7, 2, 8, 1, 0, 0, 0, 0, 195, 3, 2, 11, 131, 3,
       2, 7, 2, 8, 2, 0, 0, 0, 0, 160, 0, 0, 4, 135, 191, 112, 66, 0, 0],
   4, 38, 15, 4, []⟩

/-- The first leaf of `dTree` (block 1, trunk 8, weight 2), as fetched by
following the root's first branch payload — see `treeLeaf1_fetch`. -/
def treeLeaf1 : Rbyd :=
  ⟨1, [5, 0, 0, 0, 1, 1, 1, 0, 193, 1, 1, 4, 129, 1, 1, 0, 160, 0, 0, 4, 68,
       6, 109, 49, 0, 0, 0, 0, 0, 0, 0, 0, 0, 0, 0, 0, 0, 0, 0, 0],
   5, 16, 8, 2, []⟩

/-- The second leaf of `dTree` (block 2, trunk 8, weight 2), as fetched by
following the root's second branch payload — see `treeLeaf2_fetch`. -/
def treeLeaf2 : Rbyd :=
  ⟨2, [6, 0, 0, 0, 1, 1, 1, 0, 193, 1, 1, 4, 129, 1, 1, 0, 160, 0, 0, 4, 131,
       30, 169, 104, 0, 0, 0, 0, 0, 0, 0, 0, 0, 0, 0, 0, 0, 0, 0, 0],
   6, 16, 8, 2, []⟩

set_option maxRecDepth 4000000 in
/-- `treeRoot` is exactly the node `Rbyd.fetch` returns for block 0 of
`dTree`. -/
theorem treeRoot_fetch :
    Rbyd.fetch dTree 40 [(0, none)] none = some treeRoot := by decide

set_option maxRecDepth 4000000 in
/-- `treeLeaf1` is exactly the node fetched through the root's first
branch payload `[2, 8, 1, 0, 0, 0, 0]` (weight 2, trunk 8, block 1). -/
theorem treeLeaf1_fetch :
    Rbyd.fetchOne dTree 40 ((frombtree [2, 8, 1, 0, 0, 0, 0]).2.2.1, none)
      (some (frombtree [2, 8, 1, 0, 0, 0, 0]).2.1) = some treeLeaf1 := by
  decide

set_option maxRecDepth 4000000 in
/-- `treeLeaf2` is exactly the node fetched through the root's second
branch payload `[2, 8, 2, 0, 0, 0, 0]` (weight 2, trunk 8, block 2). -/
theorem treeLeaf2_fetch :
    Rbyd.fetchOne dTree 40 ((frombtree [2, 8, 2, 0, 0, 0, 0]).2.2.1, none)
      (some (frombtree [2, 8, 2, 0, 0, 0, 0]).2.1) = some treeLeaf2 := by
  decide

/-- The height-indexed node family of the fixture tree: the root at height
1 over the two leaves at height 0. -/
def goodTree : Nat → Rbyd → Prop := fun n r =>
  (n = 1 ∧ r = treeRoot) ∨ (n = 0 ∧ (r = treeLeaf1 ∨ r = treeLeaf2))

set_option maxRecDepth 4000000 in
set_option maxHeartbeats 2000000 in
set_option synthInstance.maxSize 1024 in
/-- The fixture family satisfies the node invariants, by direct kernel
evaluation of the collection loop at every local id of every node. -/
theorem goodTree_nodeOk : NodeOk dTree 40 50 50 goodTree := by
  intro n r hg
  rcases hg with ⟨rfl, rfl⟩ | ⟨rfl, rfl | rfl⟩
  · refine ⟨by decide, ?_⟩
    intro rid h0 hW
    have h4 : (treeRoot.weight : Int) = 4 := by decide
    rw [h4] at hW
    interval_cases rid
    · exact ⟨1, 2, [(771, 4, 4, [2, 8, 1, 0, 0, 0, 0])],
        some (771, 4, 4, [2, 8, 1, 0, 0, 0, 0]), by decide, by decide,
        by decide, by decide, by decide, by decide,
        fun rid2 ha hb => by
          have ha' : (-1 : Int) < rid2 := by omega
          interval_cases rid2 <;> decide,
        fun tg j d bdata hb => by
          simp only [Option.some_inj, Prod.mk.injEq] at hb
          obtain ⟨rfl, rfl, rfl, rfl⟩ := hb
          exact ⟨0, treeLeaf1, by omega, treeLeaf1_fetch,
            Or.inr ⟨rfl, Or.inl rfl⟩, by decide⟩⟩
    · exact ⟨1, 2, [(771, 4, 4, [2, 8, 1, 0, 0, 0, 0])],
        some (771, 4, 4, [2, 8, 1, 0, 0, 0, 0]), by decide, by decide,
        by decide, by decide, by decide, by decide,
        fun rid2 ha hb => by
          have ha' : (-1 : Int) < rid2 := by omega
          interval_cases rid2 <;> decide,
        fun tg j d bdata hb => by
          simp only [Option.some_inj, Prod.mk.injEq] at hb
          obtain ⟨rfl, rfl, rfl, rfl⟩ := hb
          exact ⟨0, treeLeaf1, by omega, treeLeaf1_fetch,
            Or.inr ⟨rfl, Or.inl rfl⟩, by decide⟩⟩
    · exact ⟨3, 2, [(771, 19, 4, [2, 8, 2, 0, 0, 0, 0])],
        some (771, 19, 4, [2, 8, 2, 0, 0, 0, 0]), by decide, by decide,
        by decide, by decide, by decide, by decide,
        fun rid2 ha hb => by
          have ha' : (1 : Int) < rid2 := by omega
          interval_cases rid2 <;> decide,
        fun tg j d bdata hb => by
          simp only [Option.some_inj, Prod.mk.injEq] at hb
          obtain ⟨rfl, rfl, rfl, rfl⟩ := hb
          exact ⟨0, treeLeaf2, by omega, treeLeaf2_fetch,
            Or.inr ⟨rfl, Or.inr rfl⟩, by decide⟩⟩
    · exact ⟨3, 2, [(771, 19, 4, [2, 8, 2, 0, 0, 0, 0])],
        some (771, 19, 4, [2, 8, 2, 0, 0, 0, 0]), by decide, by decide,
        by decide, by decide, by decide, by decide,
        fun rid2 ha hb => by
          have ha' : (1 : Int) < rid2 := by omega
          interval_cases rid2 <;> decide,
        fun tg j d bdata hb => by
          simp only [Option.some_inj, Prod.mk.injEq] at hb
          obtain ⟨rfl, rfl, rfl, rfl⟩ := hb
          exact ⟨0, treeLeaf2, by omega, treeLeaf2_fetch,
            Or.inr ⟨rfl, Or.inr rfl⟩, by decide⟩⟩
  · refine ⟨by decide, ?_⟩
    intro rid h0 hW
    have h2 : (treeLeaf1.weight : Int) = 2 := by decide
    rw [h2] at hW
    interval_cases rid
    · exact ⟨0, 1, [(257, 4, 4, [])], none, by decide, by decide, by decide,
        by decide, by decide, by decide,
        fun rid2 ha hb => by
          have ha' : (-1 : Int) < rid2 := by omega
          interval_cases rid2 <;> decide,
        fun tg j d bdata hb => Option.noConfusion hb⟩
    · exact ⟨1, 1, [(257, 12, 4, [])], none, by decide, by decide, by decide,
        by decide, by decide, by decide,
        fun rid2 ha hb => by
          have ha' : (0 : Int) < rid2 := by omega
          interval_cases rid2 <;> decide,
        fun tg j d bdata hb => Option.noConfusion hb⟩
  · refine ⟨by decide, ?_⟩
    intro rid h0 hW
    have h2 : (treeLeaf2.weight : Int) = 2 := by decide
    rw [h2] at hW
    interval_cases rid
    · exact ⟨0, 1, [(257, 4, 4, [])], none, by decide, by decide, by decide,
        by decide, by decide, by decide,
        fun rid2 ha hb => by
          have ha' : (-1 : Int) < rid2 := by omega
          interval_cases rid2 <;> decide,
        fun tg j d bdata hb => Option.noConfusion hb⟩
    · exact ⟨1, 1, [(257, 12, 4, [])], none, by decide, by decide, by decide,
        by decide, by decide, by decide,
        fun rid2 ha hb => by
          have ha' : (0 : Int) < rid2 := by omega
          interval_cases rid2 <;> decide,
        fun tg j d bdata hb => Option.noConfusion hb⟩

set_option maxRecDepth 4000000 in
/-- Witness for the amended C1: instantiating the partition theorem with
the concrete family `goodTree` of the fixture tree `dTree` at bid 2
resolves, as the theorem guarantees, to an undone leaf. -/
theorem btreeLookup_partition_wf_witness :
    (btreeLookup dTree 40 treeRoot 2 none 5 50 50).map (fun res => res.done) =
      some false := by
  obtain ⟨res, hres, hd, h⟩ :=
    btreeLookup_partition_wf dTree 40 50 50 5 goodTree goodTree_nodeOk
      treeRoot 1 (Or.inl ⟨rfl, rfl⟩) (by omega) 2 (by omega) (by decide)
  rw [hres]
  simp [hd]

set_option maxRecDepth 4000000 in
set_option synthInstance.maxSize 1024 in
/-- C4, counterexample: a fetched node with trunk 8 (non-falsy) and weight
101 (`dGap`) whose exhaustive iteration terminates after yielding one entry
`(id 99, tag 0x101, weight 100)`: the yielded per-id ranges cover only
`[0, 99]`, so they do not partition the span up to the node's total weight
(bid 100 is in no range). -/
theorem iter_ranges_gap_counterexample :
    (Rbyd.fetchOne dGap 24 (0, none) none).map (fun r =>
        (r.trunk, r.weight,
          (r.iter 50 50).map (List.map fun e => (e.1, e.2.1, e.2.2.1)))) =
      some (8, 101, some [(99, 257, 100)]) := by decide

/-- The node fetched from block 0 of a disk image, defaulted on a crash
(used only to name concrete witnesses). -/
def rbydOf (disk : List Nat) (blockSize : Nat) : Rbyd :=
  (Rbyd.fetchOne disk blockSize (0, none) none).getD default

/-- C10: for every falsy node (`trunk = 0`, whether genuinely empty or a
failed fetch) and every requested `(id, tag)`, `Rbyd.lookup` immediately
reports done with zero weight, empty payload and empty decision path, and
full iteration of such a node yields no entries. -/
theorem lookup_falsy_done (r : Rbyd) (h : r.trunk = 0) (id tag : Int)
    (lfuel fuel : Nat) :
    r.lookup id tag lfuel = some ⟨true, 0, -1, 0, 0, 0, [], []⟩ ∧
      r.iter (fuel + 1) lfuel = some [] := by
  have ht : r.truthy = false := by simp [Rbyd.truthy, h]
  refine ⟨by simp [Rbyd.lookup, ht], ?_⟩
  simp [Rbyd.iter, Rbyd.iterLoop, Rbyd.lookup, ht]

/-- Witness for C10 at a concrete falsy node. -/
theorem lookup_falsy_done_witness :
    (Rbyd.mk 3 [] 0 0 0 0 []).lookup (-1) 1 5 = some ⟨true, 0, -1, 0, 0, 0, [], []⟩ ∧
      (Rbyd.mk 3 [] 0 0 0 0 []).iter 5 5 = some [] := by
  have h := lookup_falsy_done (Rbyd.mk 3 [] 0 0 0 0 []) rfl (-1) 1 5 4
  simpa using h

/-- C7: when the `lookup` descent reaches a terminal (non-alt) tag with
candidate range `[lower, upper)`, the matched id is `upper - 1`, the
matched weight is `matched_id - lower`, the matched tag is the terminal
tag's type, and it reports done exactly when the matched `(id, tag)` is
lexicographically less than the requested `(id, tag)` or the terminal tag
carries the removed marker (bit 0x1000). -/
theorem lookup_terminal_result (r : Rbyd) (id tag lower upper j : Int)
    (path : List (Int × Int × Bool × Char)) (fuel : Nat) (v alt w size d : Nat)
    (hft : fromtag (pysliceFrom r.data j) = some (v, alt, w, size, d))
    (halt : alt &&& 0x4000 = 0) :
    ∃ done : Bool,
      r.lookupLoop id tag (fuel + 1) lower upper j path =
        some ⟨done, upper - 1, (alt : Int), upper - 1 - lower, j, d,
          pyslice r.data (j + (d : Int)) (j + (d : Int) + (size : Int)), path⟩ ∧
      (done = true ↔
        (upper - 1 < id ∨ (upper - 1 = id ∧ (alt : Int) < tag) ∨ alt &&& 0x1000 ≠ 0)) := by
  refine ⟨pyLt (upper - 1, (alt : Int)) (id, tag) || decide (alt &&& 0x1000 ≠ 0), ?_, ?_⟩
  · simp [Rbyd.lookupLoop, hft, halt]
  · simp [pyLt]
    tauto

/-- Witness for C7 at the terminal tag at offset 16 of `dTwo` (type 0x0102,
weight 2, size 0), with candidate range `[-1, 2)` and query `(-1, 1)`. -/
theorem lookup_terminal_result_witness :
    (rbydOf dTwo 28).lookupLoop (-1) 1 11 (-1) 2 16 [] =
      some ⟨false, 1, 258, 2, 16, 4, [], []⟩ := by
  obtain ⟨done, heq, hiff⟩ := lookup_terminal_result (rbydOf dTwo 28) (-1) 1 (-1) 2 16
    [] 10 0 258 2 0 4 (by decide) (by decide)
  have hd : done = false := by
    rcases Bool.eq_false_or_eq_true done with h | h
    · exact absurd (hiff.mp h) (by decide)
    · exact h
  rw [hd] at heq
  exact heq.trans (by decide)

/-- C6: for every 32-bit revision `r` (including `r = 2^32 - 1`, where
`r + 1` wraps to 0), the mirror-selection stage of `Rbyd.fetch` applied to
two fetched nodes with revisions `r` and `(r+1) % 2^32` selects the
`(r+1) % 2^32` copy regardless of which is listed first, by the
wraparound-aware comparison `(a - b) mod 2^32` having its top bit clear. -/
theorem fetch_selects_newer_revision_mod32 (r : Nat) (hr : r < 2 ^ 32) (A B : Rbyd)
    (hA : A.rev = r) (hB : B.rev = (r + 1) % 2 ^ 32)
    (hAt : A.truthy = true) (hBt : B.truthy = true) :
    (Rbyd.selectFold [A, B]).1 = 1 ∧ (Rbyd.selectFold [B, A]).1 = 0 := by
  have hne : B.rev ≠ A.rev := by rw [hA, hB]; omega
  have hfwd : (((B.rev : Int) - (A.rev : Int)) % 0x100000000).toNat &&& 0x80000000 = 0 := by
    have h1 : ((B.rev : Int) - (A.rev : Int)) % 0x100000000 = 1 := by
      rw [hA, hB]; omega
    rw [h1]; decide
  have hbwd : ¬ ((((A.rev : Int) - (B.rev : Int)) % 0x100000000).toNat &&& 0x80000000 = 0) := by
    have h1 : ((A.rev : Int) - (B.rev : Int)) % 0x100000000 = 0xffffffff := by
      rw [hA, hB]; omega
    rw [h1]; decide
  constructor
  · simp only [Rbyd.selectFold, List.enum, List.enumFrom, List.foldl, ite_self]
    rw [if_pos ⟨hBt, Or.inl hfwd⟩]
  · simp only [Rbyd.selectFold, List.enum, List.enumFrom, List.foldl, ite_self]
    rw [if_neg (by
      rintro ⟨-, h | ⟨h, -⟩⟩
      · exact hbwd h
      · exact hne h.symm)]

/-- Witness for C6 at the wraparound revision `r = 2^32 - 1`. -/
theorem fetch_selects_newer_revision_mod32_witness :
    (Rbyd.selectFold [Rbyd.mk 0 [] 0xffffffff 0 4 1 [], Rbyd.mk 1 [] 0 0 4 1 []]).1 = 1 ∧
      (Rbyd.selectFold [Rbyd.mk 1 [] 0 0 4 1 [], Rbyd.mk 0 [] 0xffffffff 0 4 1 []]).1 = 0 :=
  fetch_selects_newer_revision_mod32 0xffffffff (by norm_num)
    (Rbyd.mk 0 [] 0xffffffff 0 4 1 []) (Rbyd.mk 1 [] 0 0 4 1 []) rfl (by decide)
    (by decide) (by decide)

/-- If the lookup descent returns an undone result for query `(id, tag)`,
the returned key is not lexicographically below the requested key: the
terminal step computes `done` as exactly the below-or-removed test. -/
theorem lookupLoop_not_lt_of_not_done (r : Rbyd) (id tag : Int) :
    ∀ fuel lower upper j path res,
      r.lookupLoop id tag fuel lower upper j path = some res →
      res.done = false → pyLt (res.id_, res.tag_) (id, tag) = false := by
  intro fuel
  induction fuel with
  | zero => intro lower upper j path res h; simp [Rbyd.lookupLoop] at h
  | succ fuel ih =>
    intro lower upper j path res h hd
    rw [Rbyd.lookupLoop] at h
    split at h
    · exact absurd h (by simp)
    · rename_i v alt weight_ jump d heq
      split at h
      · -- alt tag: every leaf of the branch is a crash or a recursive call
        repeat' first
          | split at h
          | dsimp only at h
        all_goals first
          | exact ih _ _ _ _ _ h hd
          | exact absurd h (by simp)
      · -- terminal tag
        rw [Option.some_inj] at h
        subst h
        simp only [Bool.or_eq_false_iff] at hd
        exact hd.1

/-- The undone-implies-not-below fact through the `Rbyd.lookup` wrapper. -/
theorem lookup_not_lt_of_not_done (r : Rbyd) (id tag : Int) (fuel : Nat)
    (res : LookupRes) (h : r.lookup id tag fuel = some res)
    (hd : res.done = false) :
    pyLt (res.id_, res.tag_) (id, tag) = false := by
  rw [Rbyd.lookup] at h
  split at h
  · rw [Option.some_inj] at h
    subst h
    exact absurd hd (by simp)
  · exact lookupLoop_not_lt_of_not_done r id tag fuel _ _ _ _ res h hd

/-- C4, amended (its order half, proved for EVERY node, well-formed or
not): whenever the iteration loop of `Rbyd.__iter__` finishes from the
query key `(id, tag)`, the `(id, tag)` keys of the yielded entries form a
strictly increasing lexicographic chain above the starting key — each
successive `lookup(id, tag+1)` that is not done returns a strictly larger
key.  (The weight-partition half of the original claim is refuted by
`iter_ranges_gap_counterexample`.) -/
theorem iter_strictly_increasing (r : Rbyd) :
    ∀ fuel lfuel (id tag : Int) l, r.iterLoop lfuel fuel id tag = some l →
      List.Chain (fun a b => pyLt a b = true) (id, tag) (l.map fun e => (e.1, e.2.1)) := by
  intro fuel
  induction fuel with
  | zero => intro lfuel id tag l h; simp [Rbyd.iterLoop] at h
  | succ fuel ih =>
    intro lfuel id tag l h
    rw [Rbyd.iterLoop] at h
    split at h
    · exact absurd h (by simp)
    · rename_i res heq
      split at h
      · rw [Option.some_inj] at h
        subst h
        simp
      · rename_i hdone
        split at h
        · exact absurd h (by simp)
        · rename_i rest hrest
          rw [Option.some_inj] at h
          subst h
          have hnd : res.done = false := by
            rcases Bool.eq_false_or_eq_true res.done with hb | hb
            · exact absurd hb hdone
            · exact hb
          have hn := lookup_not_lt_of_not_done r id (tag + 1) lfuel res heq hnd
          refine List.Chain.cons ?_ (ih lfuel res.id_ res.tag_ rest hrest)
          simp only [pyLt, decide_eq_false_iff_not, decide_eq_true_eq] at hn ⊢
          omega

set_option maxRecDepth 4000000 in
set_option synthInstance.maxSize 1024 in
/-- Witness for C4's amended theorem at the fetched `dTwo` node, whose full
iteration yields the single entry `(1, 0x102)` above the start key
`(-1, 0)`. -/
theorem iter_strictly_increasing_witness :
    List.Chain (fun a b => pyLt a b = true) ((-1 : Int), (0 : Int)) [(1, 258)] := by
  have h := iter_strictly_increasing (rbydOf dTwo 28) 50 50 (-1) 0
    [(1, 258, 2, 16, 4, [])] (by decide)
  simpa using h

/-- The scan's committed values `(off, trunk_, weight)` always equal the
last CRC-validated commit in the ghost trace, or the initial zeros when no
commit has been found yet. -/
def commitInv (st : FetchSt) : Prop :=
  (st.off, st.trunk_, st.weight) = st.commits.getLastD (0, 0, 0)

set_option maxHeartbeats 2000000 in
/-- `commitInv` is preserved by the whole fetch scan: the committed triple
is only ever assigned in the commit branch, which appends that very triple
to the trace. -/
theorem fetchLoop_commitInv (data : List Nat) (tr : Nat) :
    ∀ fuel st st', commitInv st → fetchLoop data tr fuel st = some st' →
      commitInv st' := by
  intro fuel
  induction fuel with
  | zero => intro st st' _ h; simp [fetchLoop] at h
  | succ fuel ih =>
    intro st st' hinv h
    rw [fetchLoop] at h
    split at h
    · split at h
      · exact absurd h (by simp)
      · rename_i v tag w size d heq
        split at h
        · rw [Option.some_inj] at h; subst h; exact hinv
        · repeat' first
            | split at h
            | dsimp only at h
          all_goals first
            | exact ih _ _ (by first
                | (simp [commitInv, List.getLastD_concat, List.getLast?_concat]; done)
                | simpa [commitInv] using hinv) h
            | (rw [Option.some_inj] at h; subst h; simpa [commitInv] using hinv)
            | (rename_i heqS
               split at heqS
               all_goals first
                 | (injection heqS; done)
                 | (injection heqS with heqS
                    subst heqS
                    first
                      | exact ih _ _ (by first
                          | (simp [commitInv, List.getLastD_concat, List.getLast?_concat]; done)
                          | simpa [commitInv] using hinv) h
                      | (rw [Option.some_inj] at h; subst h; simpa [commitInv] using hinv)))
            | (rename_i heqS hc1
               split at heqS
               all_goals first
                 | (injection heqS; done)
                 | (injection heqS with heqS
                    subst heqS
                    first
                      | exact ih _ _ (by first
                          | (simp [commitInv, List.getLastD_concat, List.getLast?_concat]; done)
                          | simpa [commitInv] using hinv) h
                      | (rw [Option.some_inj] at h; subst h; simpa [commitInv] using hinv)))
            | exact absurd h (by simp)
    · rw [Option.some_inj] at h; subst h; exact hinv

/-- C3: `Rbyd.fetch` on a single block returns the last CRC-validated
commit: the fetched `(committed offset, trunk, weight)` equal the last
entry of the scan's commit trace (zeros when there is none) — so a block
with two sequential valid commits yields the second, and a block whose
second commit's CRC record mismatches yields the first.  Both block shapes
are instantiated in the witness. -/
theorem fetch_returns_last_commit (disk : List Nat) (blockSize : Nat)
    (block : Nat × Option Nat) (trunk? : Option Nat) (st : FetchSt)
    (h : Rbyd.fetchRaw disk blockSize block trunk? = some st) :
    (st.off, st.trunk_, st.weight) = st.commits.getLastD (0, 0, 0) := by
  unfold Rbyd.fetchRaw at h
  exact fetchLoop_commitInv _ _ _ _ _ (by simp [commitInv, initSt]) h

/-- The raw final scan state for block 0 of a disk image, defaulted on a
crash (used only to name concrete witnesses). -/
def fetchRawD (disk : List Nat) (blockSize : Nat) : FetchSt :=
  (Rbyd.fetchRaw disk blockSize (0, none) none).getD default

set_option maxRecDepth 4000000 in
/-- Witness for C3: scanning `dTwo` records the commit trace
`[(16, 4, 1), (28, 16, 2)]` and fetch returns the second commit
`(28, 16, 2)`; scanning `dCor` (second CRC corrupted) records only
`[(16, 4, 1)]` and fetch returns that first commit. -/
theorem fetch_returns_last_commit_witness :
    (fetchRawD dTwo 28).commits = [(16, 4, 1), (28, 16, 2)] ∧
      ((fetchRawD dTwo 28).off, (fetchRawD dTwo 28).trunk_,
        (fetchRawD dTwo 28).weight) = (28, 16, 2) ∧
      (fetchRawD dCor 28).commits = [(16, 4, 1)] ∧
      ((fetchRawD dCor 28).off, (fetchRawD dCor 28).trunk_,
        (fetchRawD dCor 28).weight) = (16, 4, 1) := by
  refine ⟨by decide, ?_, by decide, ?_⟩
  · have h := fetch_returns_last_commit dTwo 28 (0, none) none
      (fetchRawD dTwo 28) (by decide)
    exact h.trans (by decide)
  · have h := fetch_returns_last_commit dCor 28 (0, none) none
      (fetchRawD dCor 28) (by decide)
    exact h.trans (by decide)

/-- Bit-mask as modulus: `x &&& (2^n - 1) = x % 2^n`. -/
theorem and_pow_sub_one_eq_mod (x n : Nat) : x &&& (2 ^ n - 1) = x % 2 ^ n := by
  apply Nat.eq_of_testBit_eq
  intro k
  simp [Nat.testBit_and, Nat.testBit_two_pow_sub_one, Nat.testBit_mod_two_pow, Bool.and_comm]

/-- Re-masking an already masked word commutes with accumulating more bits. -/
theorem mask_or_maskN (w a b n : Nat) :
    (((w ||| a) &&& (2 ^ n - 1)) ||| b) &&& (2 ^ n - 1) = (w ||| (a ||| b)) &&& (2 ^ n - 1) := by
  apply Nat.eq_of_testBit_eq
  intro k
  simp only [Nat.testBit_and, Nat.testBit_or, Nat.testBit_two_pow_sub_one]
  by_cases hk : k < n <;> simp [hk, Bool.or_assoc]

/-- Splitting a value into its low `m` bits and the rest, shifted into
consecutive `m`-bit groups, is the value itself shifted. -/
theorem shift_or_splitN (v i m : Nat) :
    ((v % 2 ^ m) <<< (m * i)) ||| ((v >>> m) <<< (m * (i + 1))) = v <<< (m * i) := by
  apply Nat.eq_of_testBit_eq
  intro k
  simp only [Nat.testBit_or, Nat.testBit_shiftLeft, Nat.testBit_mod_two_pow,
    Nat.testBit_shiftRight, ge_iff_le]
  have hms : m * (i + 1) = m * i + m := by ring
  by_cases h1 : m * i ≤ k
  · by_cases h2 : m * (i + 1) ≤ k
    · have h3 : ¬ (k - m * i < m) := by omega
      simp only [h1, h2, h3, decide_True, decide_False, Bool.true_and, Bool.false_and,
        Bool.false_or, Bool.and_false]
      congr 1
      omega
    · have h3 : k - m * i < m := by omega
      simp [h1, h2, h3]
  · have h2 : ¬ (m * (i + 1) ≤ k) := by omega
    simp [h1, h2]

/-- `mask_or_maskN` at the 32-bit mask of `fromleb128`. -/
theorem mask_or_mask (w a b : Nat) :
    (((w ||| a) &&& 0xffffffff) ||| b) &&& 0xffffffff = (w ||| (a ||| b)) &&& 0xffffffff := by
  have h := mask_or_maskN w a b 32
  norm_num at h
  exact h

/-- `shift_or_splitN` at the 7-bit groups of LEB128. -/
theorem shift_or_split (v i : Nat) :
    ((v % 0x80) <<< (7 * i)) ||| ((v / 0x80) <<< (7 * (i + 1))) = v <<< (7 * i) := by
  have h := shift_or_splitN v i 7
  rw [Nat.shiftRight_eq_div_pow] at h
  norm_num at h
  exact h

/-- The encoder's fuel is irrelevant as long as it exceeds the value. -/
theorem toleb128Go_congr : ∀ f g v, v < f → v < g → toleb128Go f v = toleb128Go g v := by
  intro f
  induction f with
  | zero => intro g v hf; omega
  | succ f ih =>
    intro g v hf hg
    cases g with
    | zero => omega
    | succ g =>
      simp only [toleb128Go]
      split
      · rfl
      · rename_i hlt
        have hv : 0 < v := by omega
        have hd : v / 0x80 < v := Nat.div_lt_self hv (by norm_num)
        rw [ih g (v / 0x80) (by omega) (by omega)]

/-- The one-step unfolding of the reference encoder. -/
theorem toleb128_eq (v : Nat) :
    toleb128 v = if v < 0x80 then [v] else (v % 0x80 + 0x80) :: toleb128 (v / 0x80) := by
  show toleb128Go (v + 1) v = _
  rw [toleb128Go]
  split
  · rfl
  · rename_i hlt
    have hv : 0 < v := by omega
    have hd : v / 0x80 < v := Nat.div_lt_self hv (by norm_num)
    rw [toleb128Go_congr v (v / 0x80 + 1) (v / 0x80) (by omega) (by omega)]
    rfl

/-- The low 7 bits of a byte, as `fromleb128` extracts them. -/
theorem and_0x7f (x : Nat) : x &&& 0x7f = x % 0x80 := by
  have h := and_pow_sub_one_eq_mod x 7
  norm_num at h
  exact h

/-- The decoding loop applied to an encoded value accumulates exactly that
value shifted into position, masked to 32 bits, consuming the whole
encoding. -/
theorem fromleb128Aux_toleb128 :
    ∀ v w i, fromleb128Aux (toleb128 v) w i =
      ((w ||| (v <<< (7 * i))) &&& 0xffffffff, i + (toleb128 v).length) := by
  intro v
  induction v using Nat.strong_induction_on with
  | _ v ih =>
    intro w i
    rw [toleb128_eq v]
    by_cases h : v < 0x80
    · rw [if_pos h]
      simp only [fromleb128Aux]
      have hb : v &&& 0x80 = 0 := by
        have h2 : (0x80 : Nat) = 2 ^ 7 := by norm_num
        rw [h2, Nat.and_two_pow, Nat.testBit_lt_two_pow (by omega)]
        simp
      rw [if_pos hb, and_0x7f, Nat.mod_eq_of_lt h]
      simp
    · rw [if_neg h]
      simp only [fromleb128Aux]
      have hb : (v % 0x80 + 0x80) &&& 0x80 ≠ 0 := by
        have h2 : (0x80 : Nat) = 2 ^ 7 := by norm_num
        rw [h2, Nat.and_two_pow, Nat.testBit_to_div_mod]
        have hq : (v % 2 ^ 7 + 2 ^ 7) / 2 ^ 7 = 1 := by
          have := Nat.mod_lt v (show 0 < 2 ^ 7 by norm_num)
          omega
        rw [hq]
        norm_num
      rw [if_neg hb, and_0x7f]
      have hm : (v % 0x80 + 0x80) % 0x80 = v % 0x80 := by omega
      rw [hm]
      have hdlt : v / 0x80 < v := Nat.div_lt_self (by omega) (by norm_num)
      rw [ih (v / 0x80) hdlt ((w ||| (v % 0x80) <<< (7 * i)) &&& 0xffffffff) (i + 1)]
      rw [mask_or_mask, shift_or_split]
      simp only [List.length_cons, Prod.mk.injEq, true_and]
      omega

/-- C9: for every value `v` in `[0, 2^32)`, decoding the little-endian
base-128 encoding of `v` with `fromleb128` yields exactly `(v, n)` where
`n` is the byte length of that encoding. -/
theorem fromleb128_roundtrip (v : Nat) (hv : v < 2 ^ 32) :
    fromleb128 (toleb128 v) = (v, (toleb128 v).length) := by
  unfold fromleb128
  rw [fromleb128Aux_toleb128 v 0 0]
  have h1 : v <<< (7 * 0) = v := by simp
  have h2 : v &&& 0xffffffff = v := by
    have h := and_pow_sub_one_eq_mod v 32
    norm_num at h
    rw [h]
    exact Nat.mod_eq_of_lt (by norm_num at hv ⊢; omega)
  simp [h1, h2]

/-- Witness for C9 at `v = 0xdeadbeef`, whose LEB128 encoding is 5 bytes. -/
theorem fromleb128_roundtrip_witness :
    fromleb128 (toleb128 0xdeadbeef) = (0xdeadbeef, 5) := by
  rw [fromleb128_roundtrip 0xdeadbeef (by norm_num)]
  decide
